import Mathlib

/-!
Verification of the qmat_cli repository (src/main_cli.cpp, src/ObjLoader.cpp)
against its natural-language specification.

C++ strings are modelled as lists of characters (`Str`).  Functions present in
the repository sources are translated directly; the slab-mesh simplification
engine (SlabMesh.cpp) is not part of the repository files, so its operations
are modelled from the specification, as marked in their doc comments.
-/

set_option autoImplicit false

abbrev Str := List Char

/-- C-locale `std::tolower` applied to one character: lowercases ASCII A-Z
only (ObjLoader.cpp lines 14-16). -/
def cLower (c : Char) : Char :=
  if 'A' ≤ c ∧ c ≤ 'Z' then Char.ofNat (c.toNat + 32) else c

/-- `std::string::rfind(char)`: index of the last occurrence of `c` in `s`. -/
def rfindChar : Str → Char → Option Nat
  | [], _ => none
  | x :: xs, c =>
    match rfindChar xs c with
    | some i => some (i + 1)
    | none => if x = c then some 0 else none

/-- ObjLoader.cpp `GetFileExtension` (lines 8-18): the lowercased substring
after the last dot; empty when there is no dot or the dot is the final
character. -/
def GetFileExtension (filename : Str) : Str :=
  match rfindChar filename '.' with
  | none => []
  | some dotPos =>
    if dotPos = filename.length - 1 then []
    else (filename.drop (dotPos + 1)).map cLower

/-- ObjLoader.cpp `IsObjFile` (lines 20-22). -/
def IsObjFile (filename : Str) : Bool :=
  GetFileExtension filename = ['o', 'b', 'j']

/-- ObjLoader.cpp `IsOffFile` (lines 24-26). -/
def IsOffFile (filename : Str) : Bool :=
  GetFileExtension filename = ['o', 'f', 'f']

lemma rfindChar_eq_none {s : Str} {c : Char} (h : c ∉ s) : rfindChar s c = none := by
  induction s with
  | nil => rfl
  | cons x xs ih =>
    simp only [List.mem_cons, not_or] at h
    simp [rfindChar, ih h.2, Ne.symm h.1]

lemma rfindChar_append {b : Str} {c : Char} (a : Str) (h : c ∉ b) :
    rfindChar (a ++ c :: b) c = some a.length := by
  induction a with
  | nil => simp [rfindChar, rfindChar_eq_none h]
  | cons x xs ih => simp [rfindChar, ih]

lemma getFileExtension_no_dot {s : Str} (h : '.' ∉ s) : GetFileExtension s = [] := by
  simp [GetFileExtension, rfindChar_eq_none h]

lemma getFileExtension_last_dot (a b : Str) (h : '.' ∉ b) :
    GetFileExtension (a ++ '.' :: b) = b.map cLower := by
  simp only [GetFileExtension, rfindChar_append a h]
  have hdrop : (a ++ '.' :: b).drop (a.length + 1) = b := by
    induction a with
    | nil => simp
    | cons x xs ih => simp [ih]
  rcases eq_or_ne b [] with rfl | hb
  · have hc : a.length = (a ++ '.' :: ([] : Str)).length - 1 := by simp
    rw [if_pos hc]
    rfl
  · have hlen : a.length ≠ (a ++ '.' :: b).length - 1 := by
      have hpos : 0 < b.length := List.length_pos.2 hb
      simp only [List.length_append, List.length_cons]
      omega
    rw [if_neg hlen, hdrop]

/-- Characters accepted by `isspace` in the C locale. -/
def isSpaceC (c : Char) : Bool :=
  c = ' ' ∨ c = '\t' ∨ c = '\n' ∨ c = '\x0d' ∨ c = '\x0b' ∨ c = '\x0c'

/-- ASCII decimal digit test. -/
def isDigitC (c : Char) : Bool := '0' ≤ c ∧ c ≤ '9'

/-- Numeric value of a run of decimal digits. -/
def natOfDigits (ds : Str) : Nat :=
  ds.foldl (fun n c => 10 * n + (c.toNat - '0'.toNat)) 0

/-- `std::stoi` as called by main_cli.cpp line 80: optional whitespace, an
optional sign, then decimal digits.  `none` models a thrown
`invalid_argument` (no digits) or `out_of_range` (outside 32-bit int) —
both are caught identically by the `catch (...)` at line 86. -/
def stoi (s : Str) : Option Int :=
  let s1 := s.dropWhile isSpaceC
  let sgn : Int := match s1 with
    | '-' :: _ => -1
    | _ => 1
  let s2 : Str := match s1 with
    | '-' :: t => t
    | '+' :: t => t
    | t => t
  let ds := s2.takeWhile isDigitC
  if ds = [] then none
  else
    let n : Int := sgn * (natOfDigits ds : Int)
    if n < -(2 ^ 31) ∨ 2 ^ 31 ≤ n then none else some n

/-- main_cli.cpp `CLIOptions` (lines 31-39). -/
structure CLIOptions where
  inputFile : Str := []
  outputPrefix : Str := []
  simplifyTarget : Int := -1
  k : ℚ := 1 / 100000
  showHelp : Bool := false
  valid : Bool := true
  errorMessage : Str := []
deriving Repr, DecidableEq

/-- The option-scanning loop of main_cli.cpp `parseArguments` (lines 66-134).
The C++ indexes `argv`; here the not-yet-consumed arguments are a list.
`stod` (used only for `--k`, line 99) is an arbitrary parameter, since the
claims under verification do not constrain double parsing.  `arg[0]` on an
empty `std::string` yields the null character, hence `headD`. -/
def parseLoop (stod : Str → Option ℚ) : List Str → CLIOptions → CLIOptions
  | [], o => o
  | arg :: rest, o =>
    if arg = "--help".toList ∨ arg = "-h".toList then
      { o with showHelp := true }
    else if arg = "--simplify".toList then
      match rest with
      | [] => { o with valid := false, errorMessage := "--simplify requires a value.".toList }
      | v :: rest2 =>
        match stoi v with
        | none => { o with valid := false, errorMessage := "Invalid value for --simplify.".toList }
        | some n =>
          if n ≤ 0 then
            { o with valid := false, errorMessage := "--simplify value must be positive.".toList }
          else parseLoop stod rest2 { o with simplifyTarget := n }
    else if arg = "--k".toList then
      match rest with
      | [] => { o with valid := false, errorMessage := "--k requires a value.".toList }
      | v :: rest2 =>
        match stod v with
        | none => { o with valid := false, errorMessage := "Invalid value for --k.".toList }
        | some x =>
          if x ≤ 0 then
            { o with valid := false, errorMessage := "--k value must be positive.".toList }
          else parseLoop stod rest2 { o with k := x }
    else if arg = "--output".toList then
      match rest with
      | [] => { o with valid := false, errorMessage := "--output requires a value.".toList }
      | v :: rest2 => parseLoop stod rest2 { o with outputPrefix := v }
    else if arg.headD (Char.ofNat 0) = '-' then
      { o with valid := false, errorMessage := "Unknown option: ".toList ++ arg }
    else if o.inputFile = [] then
      parseLoop stod rest { o with inputFile := arg }
    else
      { o with valid := false, errorMessage := "Multiple input files specified.".toList }

/-- `std::string::rfind(str)`: the largest index at which `pat` occurs as a
contiguous sublist of `s`. -/
def rfindSub : Str → Str → Option Nat
  | [], pat => if pat = [] then some 0 else none
  | x :: xs, pat =>
    match rfindSub xs pat with
    | some i => some (i + 1)
    | none => if pat.isPrefixOf (x :: xs) then some 0 else none

/-- The ".off" extension searched for at main_cli.cpp line 146. -/
def offExt : Str := ".off".toList

/-- The default-output-prefix computation of main_cli.cpp lines 144-149:
remove a trailing ".off" from the input filename when `rfind(".off")`
lands exactly 4 characters before the end. -/
def defaultOutName (f : Str) : Str :=
  match rfindSub f offExt with
  | none => f
  | some dotPos => if dotPos = f.length - 4 then f.take dotPos else f

/-- main_cli.cpp `parseArguments` (lines 57-153).  The C++ takes
`argc`/`argv`; `args` is `argv[1..]`, so `argc < 2` is `args = []`. -/
def parseArguments (stod : Str → Option ℚ) (args : List Str) : CLIOptions :=
  if args = [] then
    { valid := false, errorMessage := "No input file specified.".toList }
  else
    let o := parseLoop stod args {}
    if o.showHelp then o
    else if ¬ o.valid then o
    else if o.inputFile = [] then
      { o with valid := false, errorMessage := "No input file specified.".toList }
    else if o.outputPrefix = [] then
      { o with outputPrefix := defaultOutName o.inputFile }
    else o

/-- One `tinyobj::shape_t` as consumed by ObjLoader.cpp lines 81-97: the
per-face vertex counts (`num_face_vertices`) and the flat index stream
(each index's `vertex_index`). -/
structure TinyShape where
  numFaceVerts : List Nat
  indices : List Int
deriving Repr, DecidableEq

/-- ObjLoader.cpp `ObjData` (lines 29-32): flat x,y,z vertex triplets and
face index lists. -/
structure ObjData where
  vertices : List ℚ
  faces : List (List Int)
deriving Repr, DecidableEq

/-- The inner loop of ObjLoader.cpp lines 83-96: walk `num_face_vertices`,
taking that many indices from the stream for each face. -/
def facesFromShape : List Nat → List Int → List (List Int)
  | [], _ => []
  | fv :: rest, idxs => idxs.take fv :: facesFromShape rest (idxs.drop fv)

/-- ObjLoader.cpp lines 80-97: collect all faces from all shapes. -/
def buildFaces (shapes : List TinyShape) : List (List Int) :=
  shapes.foldl (fun acc sh => acc ++ facesFromShape sh.numFaceVerts sh.indices) []

/-- ObjLoader.cpp `ParseObjFile` (lines 35-108), given the outcome of
`tinyobj::LoadObj` (`ret` = its return value, `err` = its error string,
`verts` = `attrib.vertices`, `shapes`).  Returns the parsed data or the
error message the C++ stores in `error` before returning false. -/
def ParseObjFile (filename : Str) (ret : Bool) (err : Str) (verts : List ℚ)
    (shapes : List TinyShape) : Except Str ObjData :=
  if ret = false then
    Except.error (if err = [] then "Failed to load OBJ file: ".toList ++ filename else err)
  else if verts = [] then
    Except.error "OBJ file contains no vertices".toList
  else
    let fs := buildFaces shapes
    if fs = [] then Except.error "OBJ file contains no faces".toList
    else Except.ok { vertices := verts, faces := fs }

/-- Outcome of `mesh.delegate(builder)` and the CGAL mesh predicates used by
ObjLoader.cpp lines 123-138: `exc` is the exception message if `delegate`
threw, and `valid`/`closed` are `mesh.is_valid()` / `mesh.is_closed()`. -/
structure BuildOutcome where
  exc : Option Str
  valid : Bool
  closed : Bool
deriving Repr, DecidableEq

/-- ObjLoader.cpp `LoadObjFile` (lines 111-140; lines 143-172 are the same
logic for the second Polyhedron type).  Result is (return value, `error`
out-parameter, warnings printed to stderr). -/
def LoadObjFile (filename : Str) (ret : Bool) (err : Str) (verts : List ℚ)
    (shapes : List TinyShape) (b : BuildOutcome) : Bool × Str × List Str :=
  match ParseObjFile filename ret err verts shapes with
  | Except.error e => (false, e, [])
  | Except.ok _ =>
    match b.exc with
    | some e => (false, "Failed to build polyhedron: ".toList ++ e, [])
    | none =>
      if b.valid = false then (false, "Resulting mesh is not valid".toList, [])
      else if b.closed = false then
        (true, [], ["Warning: Mesh is not closed (has boundary edges)".toList])
      else (true, [], [])

/-- A medial-axis sphere: center coordinates and radius (spec §3). -/
structure Sphere4 where
  x : ℚ
  y : ℚ
  z : ℚ
  r : ℚ
deriving Repr, DecidableEq, Inhabited

/-- One line of the `.ma` interchange file (spec §6): a header with the
vertex/edge/face counts, a vertex line (center and radius), an edge line
(vertex index pair) or a face line (vertex index triple). -/
inductive MaLine
  | header (nv ne nf : Nat)
  | v (x y z r : ℚ)
  | e (i j : Nat)
  | f (i j k : Nat)
deriving Repr, DecidableEq

/-- A skeletal graph in interchange form (spec §6): sphere list, edges and
faces as index pairs/triples into it. -/
structure MaGraph where
  verts : List Sphere4
  edges : List (Nat × Nat)
  faces : List (Nat × Nat × Nat)
deriving Repr, DecidableEq

/-- Modelled from the spec: the `.ma` exporter (spec §6) shared by the raw
export done inside `ThreeDimensionalShape::ComputeInputNMM` and by
`SlabMesh::Export` — SlabMesh.cpp is not among the repository files.  A
header line declaring the counts, then one line per vertex, per edge and
per face. -/
def ExportMA (g : MaGraph) : List MaLine :=
  MaLine.header g.verts.length g.edges.length g.faces.length ::
    (g.verts.map (fun s => MaLine.v s.x s.y s.z s.r) ++
     g.edges.map (fun e => MaLine.e e.1 e.2) ++
     g.faces.map (fun f => MaLine.f f.1 f.2.1 f.2.2))

/-- Read `n` vertex lines (part of the `.ma` reader modelled from spec §6). -/
def takeVs : Nat → List MaLine → Option (List Sphere4 × List MaLine)
  | 0, ls => some ([], ls)
  | n + 1, MaLine.v x y z r :: ls =>
    (takeVs n ls).map (fun p => (Sphere4.mk x y z r :: p.1, p.2))
  | _ + 1, _ => none

/-- Read `n` edge lines (part of the `.ma` reader modelled from spec §6). -/
def takeEs : Nat → List MaLine → Option (List (Nat × Nat) × List MaLine)
  | 0, ls => some ([], ls)
  | n + 1, MaLine.e i j :: ls =>
    (takeEs n ls).map (fun p => ((i, j) :: p.1, p.2))
  | _ + 1, _ => none

/-- Read `n` face lines (part of the `.ma` reader modelled from spec §6). -/
def takeFs : Nat → List MaLine → Option (List (Nat × Nat × Nat) × List MaLine)
  | 0, ls => some ([], ls)
  | n + 1, MaLine.f i j k :: ls =>
    (takeFs n ls).map (fun p => ((i, j, k) :: p.1, p.2))
  | _ + 1, _ => none

/-- Modelled from the spec: `ThreeDimensionalShape::LoadInputNMM`
(SlabMesh.cpp / ThreeDimensionalShape.cpp are not among the repository
files), which re-reads a `.ma` file as the starting slab mesh: header
counts, then exactly that many vertex, edge and face lines (spec §6). -/
def LoadInputNMM (ls : List MaLine) : Option MaGraph :=
  match ls with
  | MaLine.header nv ne nf :: rest =>
    match takeVs nv rest with
    | none => none
    | some (vs, rest2) =>
      match takeEs ne rest2 with
      | none => none
      | some (es, rest3) =>
        match takeFs nf rest3 with
        | some (fs, []) => some { verts := vs, edges := es, faces := fs }
        | _ => none
  | _ => none

/-- The operations main_cli.cpp applies to the slab mesh (lines 279-294),
recorded in an operation log for temporal-ordering statements. -/
inductive SlabOp
  | clean | collapse | facesNormal | verticesNormal | edgesCone | facesSimpleTris | exportMA
deriving Repr, DecidableEq

/-- Modelled from the spec: the slab mesh (spec §3) — SlabMesh.cpp is not
among the repository files.  Valid sphere ids, the id-to-sphere map, edges
and faces as id pairs/triples, the attributes recomputed by the post-pass,
the count of applied collapses, and the operation log. -/
structure SlabMesh where
  vertices : List Nat
  spheres : List (Nat × Sphere4)
  edges : List (Nat × Nat)
  faces : List (Nat × Nat × Nat)
  faceNormals : List (ℚ × ℚ × ℚ) := []
  vertexNormals : List (Nat × (ℚ × ℚ × ℚ)) := []
  edgeCones : List (ℚ × ℚ) := []
  faceTris : List ((ℚ × ℚ × ℚ) × (ℚ × ℚ × ℚ) × (ℚ × ℚ × ℚ)) := []
  collapses : Nat := 0
  log : List SlabOp := []
deriving Repr, DecidableEq

/-- The slab mesh's live vertex count (`SlabMesh::numVertices`). -/
def numVertices (g : SlabMesh) : Nat := g.vertices.length

/-- Does edge `e` touch vertex id `v`? -/
def touchesE (v : Nat) (e : Nat × Nat) : Bool := e.1 == v || e.2 == v

/-- Does face `f` touch vertex id `v`? -/
def touchesF (v : Nat) (f : Nat × Nat × Nat) : Bool :=
  f.1 == v || f.2.1 == v || f.2.2 == v

/-- A vertex with empty incident-edge and incident-face sets (spec §4.3). -/
def isolated (g : SlabMesh) (v : Nat) : Bool :=
  g.edges.all (fun e => ! touchesE v e) && g.faces.all (fun f => ! touchesF v f)

/-- Modelled from the spec: `SlabMesh::CleanIsolatedVertices` (spec §4.3) —
removes every sphere with no incident edge and no incident face; removals
are not counted as collapses (the `collapses` field is untouched). -/
def CleanIsolatedVertices (g : SlabMesh) : SlabMesh :=
  { g with
    vertices := g.vertices.filter (fun v => ! isolated g v),
    spheres := g.spheres.filter (fun p => ! isolated g p.1),
    log := g.log ++ [SlabOp.clean] }

/-- Modelled from the spec: the configuration-dependent pieces the spec
leaves numerically open (§9): the scalar collapse cost of an edge and the
representative merged sphere of a collapse. -/
structure CostModel where
  cost : SlabMesh → Nat → Nat → ℚ
  merge : Sphere4 → Sphere4 → Sphere4

/-- A priority-queue entry (spec §4.3): cached cost, stable edge id, and the
edge's two endpoint ids. -/
structure QEntry where
  cost : ℚ
  eid : Nat
  a : Nat
  b : Nat
deriving Repr, DecidableEq

/-- The queue order of spec §4.2/§4.3: lower cost first, ties broken by
lower edge id. -/
def keyLe (p q : QEntry) : Prop :=
  p.cost < q.cost ∨ (p.cost = q.cost ∧ p.eid ≤ q.eid)

instance : DecidablePred fun pq : QEntry × QEntry => keyLe pq.1 pq.2 := by
  intro pq; unfold keyLe; infer_instance

instance (p q : QEntry) : Decidable (keyLe p q) := by unfold keyLe; infer_instance

/-- The minimum entry of `e :: l` under `keyLe`. -/
def minEntry : QEntry → List QEntry → QEntry
  | e, [] => e
  | e, x :: xs => if keyLe e x then minEntry e xs else minEntry x xs

/-- Pop the minimum-key entry (spec §4.3 step 1): the chosen entry and the
queue with one occurrence of it removed. -/
def popMin : List QEntry → Option (QEntry × List QEntry)
  | [] => none
  | x :: xs => some (minEntry x xs, (x :: xs).erase (minEntry x xs))

/-- Modelled from the spec: the validity check of §4.3 step 2 in its
configuration-independent part — both endpoints still valid and distinct,
and the edge still present in the graph. -/
def validEntry (g : SlabMesh) (e : QEntry) : Bool :=
  g.vertices.contains e.a && g.vertices.contains e.b && (e.a != e.b) &&
    (g.edges.contains (e.a, e.b) || g.edges.contains (e.b, e.a))

/-- Redirect vertex id `b` to the survivor `a`. -/
def repointV (a b v : Nat) : Nat := if v = b then a else v

/-- Modelled from the spec: applying one collapse (spec §4.3 step 3): merge
sphere `b` into `a` using the cost model's representative sphere, erase the
collapsed vertex, re-point edges and faces at the survivor, discard edges
and faces that degenerate (repeated ids) and duplicates, count the
collapse. -/
def collapseEdge (cm : CostModel) (g : SlabMesh) (a b : Nat) : SlabMesh :=
  let sa := ((g.spheres.lookup a).getD default)
  let sb := ((g.spheres.lookup b).getD default)
  let merged := cm.merge sa sb
  { g with
    vertices := g.vertices.erase b,
    spheres := (g.spheres.filter (fun p => p.1 != b)).map
      (fun p => if p.1 = a then (a, merged) else p),
    edges := ((g.edges.map (fun e => (repointV a b e.1, repointV a b e.2))).filter
      (fun e => e.1 != e.2)).dedup,
    faces := ((g.faces.map (fun f => (repointV a b f.1, repointV a b f.2.1, repointV a b f.2.2))).filter
      (fun f => f.1 != f.2.1 && f.1 != f.2.2 && f.2.1 != f.2.2)).dedup,
    collapses := g.collapses + 1,
    log := g.log ++ [SlabOp.collapse] }

/-- Modelled from the spec: initial queue construction (spec §4.3): one
entry per edge, keyed by its cost and its stable id (its position). -/
def buildQueue (cm : CostModel) (g : SlabMesh) : List QEntry :=
  g.edges.enum.map (fun p => { cost := cm.cost g p.2.1 p.2.2, eid := p.1, a := p.2.1, b := p.2.2 })

/-- Modelled from the spec: §4.3 step 4 — recompute and re-push entries for
every edge now incident to the surviving vertex `a`. -/
def requeue (cm : CostModel) (g : SlabMesh) (a : Nat) : List QEntry :=
  (g.edges.enum.filter (fun p => touchesE a p.2)).map
    (fun p => { cost := cm.cost g p.2.1 p.2.2, eid := p.1, a := p.2.1, b := p.2.2 })

/-- Modelled from the spec: the main collapse loop of §4.3, with `r` the
number of collapses still to apply (main_cli.cpp line 274 passes
`reductionCount = currentVertices - simplifyTarget`).  Each round pops the
minimum entry among the currently admissible ones (entries whose validity
check fails are skipped and not re-pushed — here the skipped entries are
discarded in one step since validity depends only on the graph, which
changes only at a collapse); a valid pop applies the collapse and re-pushes
the survivor's neighborhood.  Returns the final graph, the final queue and
the number of collapses applied. -/
def simplifyLoop (cm : CostModel) : Nat → SlabMesh → List QEntry → SlabMesh × List QEntry × Nat
  | 0, g, q => (g, q, 0)
  | r + 1, g, q =>
    match popMin (q.filter (fun e => validEntry g e)) with
    | none => (g, [], 0)
    | some (e, rest) =>
      let g2 := collapseEdge cm g e.a e.b
      let out := simplifyLoop cm r g2 (rest ++ requeue cm g2 e.a)
      (out.1, out.2.1, out.2.2 + 1)

/-- Modelled from the spec: `SlabMesh::Simplify` (spec §4.3) — build the
initial queue and run the collapse loop for at most `r` collapses. -/
def Simplify (cm : CostModel) (r : Nat) (g : SlabMesh) : SlabMesh × List QEntry × Nat :=
  simplifyLoop cm r g (buildQueue cm g)

/-- The run's terminal state (spec §4.3): `Converged` when the requested
number of collapses was applied, `Exhausted` when the queue emptied
first. -/
inductive SimpStatus
  | Converged | Exhausted
deriving Repr, DecidableEq

/-- Terminal state of a `Simplify` run asked for `r` collapses that applied
`applied` of them. -/
def runStatus (r applied : Nat) : SimpStatus :=
  if applied = r then SimpStatus.Converged else SimpStatus.Exhausted

/-- Sphere of a given id (default sphere when the id is unknown). -/
def sphereOf (g : SlabMesh) (v : Nat) : Sphere4 := (g.spheres.lookup v).getD default

/-- A sphere's center. -/
def centerOf (s : Sphere4) : ℚ × ℚ × ℚ := (s.x, s.y, s.z)

/-- Componentwise vector difference. -/
def vsub (u v : ℚ × ℚ × ℚ) : ℚ × ℚ × ℚ := (u.1 - v.1, u.2.1 - v.2.1, u.2.2 - v.2.2)

/-- Componentwise vector sum. -/
def vadd (u v : ℚ × ℚ × ℚ) : ℚ × ℚ × ℚ := (u.1 + v.1, u.2.1 + v.2.1, u.2.2 + v.2.2)

/-- Cross product. -/
def cross (u v : ℚ × ℚ × ℚ) : ℚ × ℚ × ℚ :=
  (u.2.1 * v.2.2 - u.2.2 * v.2.1, u.2.2 * v.1 - u.1 * v.2.2, u.1 * v.2.1 - u.2.1 * v.1)

/-- Squared distance between two points. -/
def sqDist (u v : ℚ × ℚ × ℚ) : ℚ :=
  (u.1 - v.1) ^ 2 + (u.2.1 - v.2.1) ^ 2 + (u.2.2 - v.2.2) ^ 2

/-- A face's (unnormalized) normal from its three sphere centers (spec §4.4). -/
def faceNormalOf (g : SlabMesh) (f : Nat × Nat × Nat) : ℚ × ℚ × ℚ :=
  cross (vsub (centerOf (sphereOf g f.2.1)) (centerOf (sphereOf g f.1)))
        (vsub (centerOf (sphereOf g f.2.2)) (centerOf (sphereOf g f.1)))

/-- Modelled from the spec: `SlabMesh::ComputeFacesNormal` (spec §4.4) —
recompute every face's normal. -/
def ComputeFacesNormal (g : SlabMesh) : SlabMesh :=
  { g with
    faceNormals := g.faces.map (faceNormalOf g),
    log := g.log ++ [SlabOp.facesNormal] }

/-- Modelled from the spec: `SlabMesh::ComputeVerticesNormal` (spec §4.4) —
each vertex's normal accumulated from its incident faces' normals. -/
def ComputeVerticesNormal (g : SlabMesh) : SlabMesh :=
  { g with
    vertexNormals := g.vertices.map (fun v =>
      (v, ((g.faces.zip g.faceNormals).filter (fun p => touchesF v p.1)).foldl
        (fun acc p => vadd acc p.2) (0, 0, 0))),
    log := g.log ++ [SlabOp.verticesNormal] }

/-- Modelled from the spec: `SlabMesh::ComputeEdgesCone` (spec §4.4) — per
edge, the data determining the tangent cone between its two spheres: the
radius difference and the squared center distance. -/
def ComputeEdgesCone (g : SlabMesh) : SlabMesh :=
  { g with
    edgeCones := g.edges.map (fun e =>
      ((sphereOf g e.2).r - (sphereOf g e.1).r,
       sqDist (centerOf (sphereOf g e.2)) (centerOf (sphereOf g e.1)))),
    log := g.log ++ [SlabOp.edgesCone] }

/-- Modelled from the spec: `SlabMesh::ComputeFacesSimpleTriangles`
(spec §4.4) — per face, the triangle of its three sphere centers
approximating the envelope patch, used only for export/rendering. -/
def ComputeFacesSimpleTriangles (g : SlabMesh) : SlabMesh :=
  { g with
    faceTris := g.faces.map (fun f =>
      (centerOf (sphereOf g f.1), centerOf (sphereOf g f.2.1), centerOf (sphereOf g f.2.2))),
    log := g.log ++ [SlabOp.facesSimpleTris] }

/-- The slab mesh's graph part in interchange form: spheres in the order of
the valid-vertex list, edges and faces re-indexed into that order. -/
def toMaGraph (g : SlabMesh) : MaGraph :=
  { verts := g.vertices.map (sphereOf g),
    edges := g.edges.map (fun e => (g.vertices.indexOf e.1, g.vertices.indexOf e.2)),
    faces := g.faces.map (fun f =>
      (g.vertices.indexOf f.1, g.vertices.indexOf f.2.1, g.vertices.indexOf f.2.2)) }

/-- Modelled from the spec: `SlabMesh::Export` (spec §6) — serialize the
final graph in the same prefix-keyed `.ma` format as the raw export.
Returns the graph with the export logged, and the written file. -/
def ExportSlab (outName : Str) (g : SlabMesh) : SlabMesh × (Str × List MaLine) :=
  ({ g with log := g.log ++ [SlabOp.exportMA] },
   (outName ++ ".ma".toList, ExportMA (toMaGraph g)))

/-- An interchange graph loaded as the starting slab mesh: ids are the
positions 0..n-1 of the sphere list. -/
def slabOfMa (m : MaGraph) : SlabMesh :=
  { vertices := List.range m.verts.length,
    spheres := m.verts.enum,
    edges := m.edges,
    faces := m.faces }

/-- main_cli.cpp lines 269-296: the simplification phase applied once the
slab mesh is loaded.  Take the current vertex count; if the target is at
least that count, warn and skip (the graph is returned untouched and
nothing is written); otherwise clean isolated vertices, simplify by
`currentVertices - simplifyTarget` collapses, recompute face normals,
vertex normals, edge cones and face simple-triangles, and export with the
output prefix.  Returns the final mesh and the files written. -/
def simplifyPhase (cm : CostModel) (simplifyTarget : Int) (outName : Str) (g : SlabMesh) :
    SlabMesh × List (Str × List MaLine) :=
  let currentVertices : Int := numVertices g
  if simplifyTarget ≥ currentVertices then (g, [])
  else
    let reductionCount := (currentVertices - simplifyTarget).toNat
    let g1 := CleanIsolatedVertices g
    let g2 := (Simplify cm reductionCount g1).1
    let g3 := ComputeFacesSimpleTriangles (ComputeEdgesCone (ComputeVerticesNormal (ComputeFacesNormal g2)))
    let outp := ExportSlab outName g3
    (outp.1, [outp.2])

/-- The parts of a run main_cli.cpp consumes from outside the repository
files: whether the input file opens (main_cli.cpp line 192), the raw
medial-axis graph produced by `ComputeInputNMM`, and the cost model. -/
structure World where
  fileOk : Bool
  rawMA : MaGraph
  cm : CostModel

/-- main_cli.cpp `main` (lines 155-302) at the granularity of the claims:
argument handling (help → exit 0; invalid → exit 1), the input-file open
check (failure → exit 1 before anything is computed or written), the raw
`.ma` export done by `ComputeInputNMM` (line 234-237), and — when a
simplification target was given — reloading that export via `LoadInputNMM`
(lines 257-258) and running the simplification phase.  Returns the exit
code and every file written. -/
def mainRun (w : World) (stod : Str → Option ℚ) (args : List Str) :
    Int × List (Str × List MaLine) :=
  let o := parseArguments stod args
  if o.showHelp then (0, [])
  else if o.valid = false then (1, [])
  else if w.fileOk = false then (1, [])
  else
    let rawFile := (o.outputPrefix ++ ".ma".toList, ExportMA w.rawMA)
    if o.simplifyTarget > 0 then
      match LoadInputNMM (ExportMA w.rawMA) with
      | none => (0, [rawFile])
      | some m =>
        let outp := simplifyPhase w.cm o.simplifyTarget o.outputPrefix (slabOfMa m)
        (0, rawFile :: outp.2)
    else (0, [rawFile])

lemma simplifyPhase_skip (cm : CostModel) (t : Int) (outName : Str) (g : SlabMesh)
    (h : t ≥ (numVertices g : Int)) : simplifyPhase cm t outName g = (g, []) := by
  simp [simplifyPhase, h]

/-- A one-vertex slab mesh used to instantiate hypotheses concretely. -/
def gOne : SlabMesh :=
  { vertices := [0], spheres := [(0, default)], edges := [], faces := [] }

/-- A trivial cost model used to instantiate hypotheses concretely. -/
def cmZero : CostModel := { cost := fun _ _ _ => 0, merge := fun s _ => s }

/-- C1: when the requested simplification target is at least the loaded slab
mesh's current vertex count, main_cli.cpp lines 269-272 skip the whole
simplification branch: the graph is returned unchanged (byte-for-byte, all
fields equal) and no cleanup, collapse, post-pass or export is applied (no
operation is logged, nothing is written). -/
theorem C1_target_ge_count_noop (cm : CostModel) (simplifyTarget : Int) (outName : Str)
    (g : SlabMesh) (h : simplifyTarget ≥ (numVertices g : Int)) :
    simplifyPhase cm simplifyTarget outName g = (g, []) :=
  simplifyPhase_skip cm simplifyTarget outName g h

/-- Witness for C1 at a concrete one-vertex mesh and target 5. -/
theorem C1_target_ge_count_noop_witness :
    simplifyPhase cmZero 5 [] gOne = (gOne, []) :=
  C1_target_ge_count_noop cmZero 5 [] gOne (by decide)

/-- C9: `GetFileExtension` returns the lowercased substring after the last
dot — and the empty string when the filename has no dot or ends with the
dot — so `IsObjFile` and `IsOffFile` are case-insensitive exact matches on
the "obj" / "off" extension. -/
theorem C9_getFileExtension_spec :
    (∀ s : Str, '.' ∉ s → GetFileExtension s = []) ∧
    (∀ a b : Str, '.' ∉ b → GetFileExtension (a ++ '.' :: b) = b.map cLower) ∧
    (∀ a b : Str, '.' ∉ b →
      (IsObjFile (a ++ '.' :: b) = true ↔ b.map cLower = ['o', 'b', 'j'])) ∧
    (∀ a b : Str, '.' ∉ b →
      (IsOffFile (a ++ '.' :: b) = true ↔ b.map cLower = ['o', 'f', 'f'])) := by
  refine ⟨fun s h => getFileExtension_no_dot h,
          fun a b h => getFileExtension_last_dot a b h, ?_, ?_⟩
  · intro a b h
    rw [IsObjFile, getFileExtension_last_dot a b h]
    simp
  · intro a b h
    rw [IsOffFile, getFileExtension_last_dot a b h]
    simp

/-- Witness for C9 at the concrete filename "model.ObJ". -/
theorem C9_getFileExtension_spec_witness :
    GetFileExtension ("model".toList ++ '.' :: "ObJ".toList) = ("ObJ".toList).map cLower ∧
    (IsObjFile ("model".toList ++ '.' :: "ObJ".toList) = true ↔
      ("ObJ".toList).map cLower = ['o', 'b', 'j']) :=
  ⟨C9_getFileExtension_spec.2.1 ("model".toList) ("ObJ".toList) (by decide),
   C9_getFileExtension_spec.2.2.1 ("model".toList) ("ObJ".toList) (by decide)⟩

lemma takeVs_append (vs : List Sphere4) (rest : List MaLine) :
    takeVs vs.length (vs.map (fun s => MaLine.v s.x s.y s.z s.r) ++ rest) = some (vs, rest) := by
  induction vs with
  | nil => rfl
  | cons s ss ih => simp [takeVs, ih]

lemma takeEs_append (es : List (Nat × Nat)) (rest : List MaLine) :
    takeEs es.length (es.map (fun e => MaLine.e e.1 e.2) ++ rest) = some (es, rest) := by
  induction es with
  | nil => rfl
  | cons e ee ih => simp [takeEs, ih]

lemma takeFs_append (fs : List (Nat × Nat × Nat)) (rest : List MaLine) :
    takeFs fs.length (fs.map (fun f => MaLine.f f.1 f.2.1 f.2.2) ++ rest) = some (fs, rest) := by
  induction fs with
  | nil => rfl
  | cons f ff ih => simp [takeFs, ih]

lemma loadInputNMM_exportMA (g : MaGraph) : LoadInputNMM (ExportMA g) = some g := by
  obtain ⟨vs, es, fs⟩ := g
  have h1 : (vs.map (fun s => MaLine.v s.x s.y s.z s.r) ++
      es.map (fun e => MaLine.e e.1 e.2) ++ fs.map (fun f => MaLine.f f.1 f.2.1 f.2.2)) =
      vs.map (fun s => MaLine.v s.x s.y s.z s.r) ++
      (es.map (fun e => MaLine.e e.1 e.2) ++ fs.map (fun f => MaLine.f f.1 f.2.1 f.2.2)) := by
    simp [List.append_assoc]
  have h2 : fs.map (fun f => MaLine.f f.1 f.2.1 f.2.2) =
      fs.map (fun f => MaLine.f f.1 f.2.1 f.2.2) ++ [] := by simp
  rw [ExportMA, LoadInputNMM]
  simp only [h1]
  simp only [takeVs_append]
  simp only [takeEs_append]
  rw [h2]
  simp only [takeFs_append]

/-- C5: the raw (unsimplified) export and the simplified export share the
`.ma` interchange format — `ExportMA` serializes both in `mainRun`
(the raw write of line 237 and `ExportSlab` both call it) — and a raw
export re-ingested by `LoadInputNMM` reproduces exactly the graph that was
exported, so it can seed a later simplification run. -/
theorem C5_export_roundtrip :
    (∀ g : MaGraph, LoadInputNMM (ExportMA g) = some g) ∧
    (∀ (outName : Str) (g : SlabMesh),
      (ExportSlab outName g).2 = (outName ++ ".ma".toList, ExportMA (toMaGraph g))) :=
  ⟨loadInputNMM_exportMA, fun _ _ => rfl⟩

lemma keyLe_refl (p : QEntry) : keyLe p p := Or.inr ⟨rfl, le_refl _⟩

lemma keyLe_total (p q : QEntry) : keyLe p q ∨ keyLe q p := by
  unfold keyLe
  rcases lt_trichotomy p.cost q.cost with h | h | h
  · exact Or.inl (Or.inl h)
  · rcases le_total p.eid q.eid with he | he
    · exact Or.inl (Or.inr ⟨h, he⟩)
    · exact Or.inr (Or.inr ⟨h.symm, he⟩)
  · exact Or.inr (Or.inl h)

lemma keyLe_trans {p q r : QEntry} (h1 : keyLe p q) (h2 : keyLe q r) : keyLe p r := by
  unfold keyLe at *
  rcases h1 with h1 | ⟨h1, h1e⟩ <;> rcases h2 with h2 | ⟨h2, h2e⟩
  · exact Or.inl (lt_trans h1 h2)
  · exact Or.inl (h2 ▸ h1)
  · exact Or.inl (h1 ▸ h2)
  · exact Or.inr ⟨h1.trans h2, h1e.trans h2e⟩

lemma keyLe_antisymm_parts {p q : QEntry} (h1 : keyLe p q) (h2 : keyLe q p) :
    p.cost = q.cost ∧ p.eid = q.eid := by
  unfold keyLe at *
  rcases h1 with h1 | ⟨h1, h1e⟩ <;> rcases h2 with h2 | ⟨h2, h2e⟩
  · exact absurd (lt_trans h1 h2) (lt_irrefl _)
  · exact absurd h1 (h2 ▸ lt_irrefl _)
  · exact absurd h2 (h1 ▸ lt_irrefl _)
  · exact ⟨h1, le_antisymm h1e h2e⟩

lemma minEntry_mem (e : QEntry) (l : List QEntry) : minEntry e l ∈ e :: l := by
  induction l generalizing e with
  | nil => simp [minEntry]
  | cons x xs ih =>
    rw [minEntry]
    by_cases h : keyLe e x
    · rw [if_pos h]
      rcases List.mem_cons.1 (ih e) with h1 | h1
      · simp [h1]
      · simp [List.mem_cons, Or.inr (Or.inr h1)]
    · rw [if_neg h]
      rcases List.mem_cons.1 (ih x) with h1 | h1
      · simp [h1]
      · simp [List.mem_cons, Or.inr (Or.inr h1)]

lemma minEntry_le (e : QEntry) (l : List QEntry) : ∀ y ∈ e :: l, keyLe (minEntry e l) y := by
  induction l generalizing e with
  | nil =>
    intro y hy
    rw [List.mem_singleton] at hy
    subst hy
    exact keyLe_refl _
  | cons x xs ih =>
    intro y hy
    rw [minEntry]
    rcases List.mem_cons.1 hy with hye | hy2
    · rw [hye]
      by_cases h : keyLe e x
      · rw [if_pos h]
        exact ih e e (List.mem_cons_self e xs)
      · rw [if_neg h]
        exact keyLe_trans (ih x x (List.mem_cons_self x xs)) ((keyLe_total e x).resolve_left h)
    rcases List.mem_cons.1 hy2 with hyx | hy3
    · rw [hyx]
      by_cases h : keyLe e x
      · rw [if_pos h]
        exact keyLe_trans (ih e e (List.mem_cons_self e xs)) h
      · rw [if_neg h]
        exact ih x x (List.mem_cons_self x xs)
    · by_cases h : keyLe e x
      · rw [if_pos h]
        exact ih e y (List.mem_cons_of_mem e hy3)
      · rw [if_neg h]
        exact ih x y (List.mem_cons_of_mem x hy3)

lemma popMin_eq_some {q : List QEntry} {e : QEntry} {rest : List QEntry}
    (h : popMin q = some (e, rest)) : e ∈ q ∧ (∀ y ∈ q, keyLe e y) ∧ rest = q.erase e := by
  match q with
  | [] => simp [popMin] at h
  | x :: xs =>
    rw [popMin] at h
    have h1 : e = minEntry x xs ∧ rest = (x :: xs).erase (minEntry x xs) := by
      have := Option.some.inj h
      exact ⟨(Prod.mk.injEq _ _ _ _ ▸ this).1.symm, (Prod.mk.injEq _ _ _ _ ▸ this).2.symm⟩
    obtain ⟨rfl, hrest⟩ := h1
    exact ⟨minEntry_mem x xs, minEntry_le x xs, hrest⟩

lemma nodup_eid_eq {q : List QEntry}
    (hnd : q.Pairwise (fun a b => a.eid ≠ b.eid)) {p e : QEntry}
    (hp : p ∈ q) (he : e ∈ q) (heq : p.eid = e.eid) : p = e := by
  induction q with
  | nil => simp at hp
  | cons x xs ih =>
    rw [List.pairwise_cons] at hnd
    rcases List.mem_cons.1 hp with hpx | hp2
    · rcases List.mem_cons.1 he with hex | he2
      · rw [hpx, hex]
      · rw [hpx] at heq
        exact absurd heq (hnd.1 e he2)
    · rcases List.mem_cons.1 he with hex | he2
      · rw [hex] at heq
        exact absurd heq.symm (hnd.1 p hp2)
      · exact ih hnd.2 hp2 he2

/-- C6: determinism.  The whole embedded run is a pure function of the input
and configuration — equal worlds, numeric parsers and argument lists give
byte-for-byte equal outputs — and the source of nondeterminism the spec
worries about, equal-cost queue entries, is resolved by the lower-edge-id
tie-break: the popped minimum of the priority queue depends only on the
queue's membership (not on insertion order) whenever edge ids are
distinct. -/
theorem C6_determinism :
    (∀ (w w2 : World) (stod stod2 : Str → Option ℚ) (args args2 : List Str),
      w = w2 → stod = stod2 → args = args2 →
      mainRun w stod args = mainRun w2 stod2 args2) ∧
    (∀ q q2 : List QEntry, (∀ e, e ∈ q ↔ e ∈ q2) →
      q.Pairwise (fun a b => a.eid ≠ b.eid) →
      q2.Pairwise (fun a b => a.eid ≠ b.eid) →
      Option.map Prod.fst (popMin q) = Option.map Prod.fst (popMin q2)) := by
  constructor
  · intro w w2 stod stod2 args args2 h1 h2 h3
    rw [h1, h2, h3]
  · intro q q2 hmem hnd hnd2
    match hq : q, hq2 : q2 with
    | [], [] => rfl
    | [], y :: ys =>
      exact absurd ((hmem y).2 (List.mem_cons_self y ys)) (List.not_mem_nil y)
    | x :: xs, [] =>
      exact absurd ((hmem x).1 (List.mem_cons_self x xs)) (List.not_mem_nil x)
    | x :: xs, y :: ys =>
      have hpm1 : popMin (x :: xs) = some (minEntry x xs, (x :: xs).erase (minEntry x xs)) := rfl
      have hpm2 : popMin (y :: ys) = some (minEntry y ys, (y :: ys).erase (minEntry y ys)) := rfl
      obtain ⟨hm1, hle1, -⟩ := popMin_eq_some hpm1
      obtain ⟨hm2, hle2, -⟩ := popMin_eq_some hpm2
      have hab : keyLe (minEntry x xs) (minEntry y ys) := hle1 _ ((hmem _).2 hm2)
      have hba : keyLe (minEntry y ys) (minEntry x xs) := hle2 _ ((hmem _).1 hm1)
      have heid := (keyLe_antisymm_parts hab hba).2
      have : minEntry x xs = minEntry y ys :=
        nodup_eid_eq hnd hm1 ((hmem _).2 hm2) heid
      simp [popMin, this]

/-- A concrete world used to instantiate hypotheses. -/
def w0c : World :=
  { fileOk := true, rawMA := { verts := [], edges := [], faces := [] }, cm := cmZero }

/-- Two concrete queue entries with equal cost and distinct ids. -/
def qe1 : QEntry := { cost := 1, eid := 1, a := 0, b := 1 }

/-- A second concrete queue entry. -/
def qe2 : QEntry := { cost := 1, eid := 2, a := 1, b := 2 }

/-- A concrete double parser that rejects everything. -/
def stod0 : Str → Option ℚ := fun _ => none

/-- Witness for C6: equal runs at a concrete input, and the tie-break picking
the same entry from two differently-ordered queues. -/
theorem C6_determinism_witness :
    mainRun w0c stod0 ["m.off".toList] = mainRun w0c stod0 ["m.off".toList] ∧
    Option.map Prod.fst (popMin [qe1, qe2]) = Option.map Prod.fst (popMin [qe2, qe1]) :=
  ⟨C6_determinism.1 w0c w0c stod0 stod0 _ _ rfl rfl rfl,
   C6_determinism.2 [qe1, qe2] [qe2, qe1] (by intro e; constructor <;> (intro h; simp at h; rcases h with h | h <;> simp [h])) (by simp [qe1, qe2]) (by simp [qe1, qe2])⟩

lemma collapseEdge_numVertices {g : SlabMesh} {a b : Nat} (cm : CostModel)
    (hb : b ∈ g.vertices) :
    numVertices g = numVertices (collapseEdge cm g a b) + 1 := by
  unfold numVertices collapseEdge
  simp only
  rw [List.length_erase_of_mem hb]
  have := List.length_pos.2 (List.ne_nil_of_mem hb)
  omega

lemma validEntry_b_mem {g : SlabMesh} {e : QEntry} (h : validEntry g e = true) :
    e.b ∈ g.vertices := by
  unfold validEntry at h
  simp only [Bool.and_eq_true] at h
  have := h.1.1.2
  simpa using this

lemma simplifyLoop_applied_le (cm : CostModel) (r : Nat) (g : SlabMesh) (q : List QEntry) :
    (simplifyLoop cm r g q).2.2 ≤ r := by
  induction r generalizing g q with
  | zero => simp [simplifyLoop]
  | succ r ih =>
    rw [simplifyLoop]
    cases hp : popMin (q.filter (fun e => validEntry g e)) with
    | none => simp
    | some er =>
      obtain ⟨e, rest⟩ := er
      simp only
      exact Nat.succ_le_succ (ih _ _)

lemma simplifyLoop_exhausted (cm : CostModel) (r : Nat) (g : SlabMesh) (q : List QEntry)
    (h : (simplifyLoop cm r g q).2.2 < r) : (simplifyLoop cm r g q).2.1 = [] := by
  induction r generalizing g q with
  | zero => exact absurd h (by simp)
  | succ r ih =>
    rw [simplifyLoop] at h ⊢
    cases hp : popMin (q.filter (fun e => validEntry g e)) with
    | none => rfl
    | some er =>
      obtain ⟨e, rest⟩ := er
      rw [hp] at h
      simp only at h ⊢
      exact ih _ _ (Nat.lt_of_succ_lt_succ h)

lemma simplifyLoop_count (cm : CostModel) (r : Nat) (g : SlabMesh) (q : List QEntry) :
    numVertices g = numVertices (simplifyLoop cm r g q).1 + (simplifyLoop cm r g q).2.2 := by
  induction r generalizing g q with
  | zero => simp [simplifyLoop]
  | succ r ih =>
    rw [simplifyLoop]
    cases hp : popMin (q.filter (fun e => validEntry g e)) with
    | none => simp
    | some er =>
      obtain ⟨e, rest⟩ := er
      simp only
      have hmem : e ∈ q.filter (fun e => validEntry g e) := (popMin_eq_some hp).1
      have hvalid : validEntry g e = true := by
        have := List.mem_filter.1 hmem
        exact this.2
      have h1 := @collapseEdge_numVertices g e.a e.b cm (validEntry_b_mem hvalid)
      rw [h1]
      rw [ih (collapseEdge cm g e.a e.b) (rest ++ requeue cm (collapseEdge cm g e.a e.b) e.a)]
      ring

lemma simplifyLoop_log (cm : CostModel) (r : Nat) (g : SlabMesh) (q : List QEntry) :
    (simplifyLoop cm r g q).1.log =
      g.log ++ List.replicate (simplifyLoop cm r g q).2.2 SlabOp.collapse := by
  induction r generalizing g q with
  | zero => simp [simplifyLoop]
  | succ r ih =>
    rw [simplifyLoop]
    cases hp : popMin (q.filter (fun e => validEntry g e)) with
    | none => simp
    | some er =>
      obtain ⟨e, rest⟩ := er
      simp only
      rw [ih (collapseEdge cm g e.a e.b) (rest ++ requeue cm (collapseEdge cm g e.a e.b) e.a)]
      have hcl : (collapseEdge cm g e.a e.b).log = g.log ++ [SlabOp.collapse] := rfl
      rw [hcl]
      simp [List.replicate_succ, List.append_assoc]

lemma clean_numVertices_of_no_isolated {g : SlabMesh}
    (hiso : ∀ v ∈ g.vertices, isolated g v = false) :
    numVertices (CleanIsolatedVertices g) = numVertices g := by
  unfold numVertices CleanIsolatedVertices
  simp only
  have hself : g.vertices.filter (fun v => ! isolated g v) = g.vertices :=
    List.filter_eq_self.2 (fun a ha => by rw [hiso a ha]; rfl)
  rw [hself]

/-- A slab mesh with one isolated vertex (id 3) beside a triangle 0-1-2:
the kind of extraction artifact `CleanIsolatedVertices` exists to remove. -/
def cexG : SlabMesh :=
  { vertices := [0, 1, 2, 3],
    spheres := [(0, default), (1, default), (2, default), (3, default)],
    edges := [(0, 1), (1, 2), (2, 0)],
    faces := [] }

/-- Counterexample to C2 as stated: main takes the vertex count (4) before
`CleanIsolatedVertices`, which removes the isolated vertex, so the
converged run `Simplify(4 - 3)` ends with 2 vertices, not the requested
target 3. -/
theorem C2_counterexample :
    runStatus (numVertices cexG - 3)
        (Simplify cmZero (numVertices cexG - 3) (CleanIsolatedVertices cexG)).2.2 =
      SimpStatus.Converged ∧
    numVertices (Simplify cmZero (numVertices cexG - 3) (CleanIsolatedVertices cexG)).1 = 2 ∧
    numVertices (Simplify cmZero (numVertices cexG - 3) (CleanIsolatedVertices cexG)).1 ≠ 3 := by
  decide

/-- C2 (amended): provided the loaded graph has no isolated vertices (so the
cleanup pass between taking the count and collapsing removes nothing), the
target bound holds for main's call sequence: for target ≤ current count,
the final count equals the target when the run converges (the requested
`current − target` collapses were all applied), and otherwise the final
count exceeds the target and the collapse queue is empty (`Exhausted`). -/
theorem C2_target_bound_amended (cm : CostModel) (g : SlabMesh) (target r : Nat)
    (out : SlabMesh × List QEntry × Nat)
    (ht : target ≤ numVertices g)
    (hiso : ∀ v ∈ g.vertices, isolated g v = false)
    (hr : r = numVertices g - target)
    (hout : out = Simplify cm r (CleanIsolatedVertices g)) :
    (runStatus r out.2.2 = SimpStatus.Converged → numVertices out.1 = target) ∧
    (runStatus r out.2.2 = SimpStatus.Exhausted →
      target < numVertices out.1 ∧ out.2.1 = []) := by
  subst hout
  have hclean := clean_numVertices_of_no_isolated hiso
  have hcount := simplifyLoop_count cm r (CleanIsolatedVertices g)
    (buildQueue cm (CleanIsolatedVertices g))
  have happle := simplifyLoop_applied_le cm r (CleanIsolatedVertices g)
    (buildQueue cm (CleanIsolatedVertices g))
  constructor
  · intro hconv
    have happ : (Simplify cm r (CleanIsolatedVertices g)).2.2 = r := by
      by_contra hne
      rw [runStatus, if_neg hne] at hconv
      exact absurd hconv (by simp)
    unfold Simplify at happ ⊢
    omega
  · intro hexh
    have hne : (Simplify cm r (CleanIsolatedVertices g)).2.2 ≠ r := by
      intro heq
      rw [runStatus, if_pos heq] at hexh
      exact absurd hexh (by simp)
    unfold Simplify at hne ⊢
    have hlt : (simplifyLoop cm r (CleanIsolatedVertices g)
        (buildQueue cm (CleanIsolatedVertices g))).2.2 < r := lt_of_le_of_ne happle hne
    refine ⟨by omega, simplifyLoop_exhausted cm r _ _ hlt⟩

/-- A triangle slab mesh with no isolated vertex. -/
def gTri : SlabMesh :=
  { vertices := [0, 1, 2],
    spheres := [(0, default), (1, default), (2, default)],
    edges := [(0, 1), (1, 2), (2, 0)],
    faces := [] }

/-- Witness for the amended C2 at the concrete triangle mesh, target 2. -/
theorem C2_target_bound_amended_witness :
    (runStatus 1 (Simplify cmZero 1 (CleanIsolatedVertices gTri)).2.2 = SimpStatus.Converged →
      numVertices (Simplify cmZero 1 (CleanIsolatedVertices gTri)).1 = 2) ∧
    (runStatus 1 (Simplify cmZero 1 (CleanIsolatedVertices gTri)).2.2 = SimpStatus.Exhausted →
      2 < numVertices (Simplify cmZero 1 (CleanIsolatedVertices gTri)).1 ∧
      (Simplify cmZero 1 (CleanIsolatedVertices gTri)).2.1 = []) :=
  C2_target_bound_amended cmZero gTri 2 1 (Simplify cmZero 1 (CleanIsolatedVertices gTri))
    (by decide) (by decide) (by decide) rfl

lemma simplify_log (cm : CostModel) (r : Nat) (g : SlabMesh) :
    (Simplify cm r g).1.log = g.log ++ List.replicate (Simplify cm r g).2.2 SlabOp.collapse :=
  simplifyLoop_log cm r g (buildQueue cm g)

/-- C4: in every run that applies simplification (target strictly below the
current count), the operation log shows the strict order of main_cli.cpp
lines 279-294 — `CleanIsolatedVertices` exactly once, then the collapses
of `Simplify`, then the four post-pass recomputations (face normals,
vertex normals, edge cones, face simple-triangles), then the export — and
the cleanup pass does not touch the collapse counter (its removals are not
counted as collapses). -/
theorem C4_operation_order (cm : CostModel) (simplifyTarget : Int) (outName : Str)
    (g : SlabMesh) (h : simplifyTarget < (numVertices g : Int)) :
    (∃ n, (simplifyPhase cm simplifyTarget outName g).1.log =
      g.log ++ [SlabOp.clean] ++ List.replicate n SlabOp.collapse ++
        [SlabOp.facesNormal, SlabOp.verticesNormal, SlabOp.edgesCone,
         SlabOp.facesSimpleTris, SlabOp.exportMA]) ∧
    (CleanIsolatedVertices g).collapses = g.collapses := by
  refine ⟨⟨(Simplify cm ((numVertices g : Int) - simplifyTarget).toNat
      (CleanIsolatedVertices g)).2.2, ?_⟩, rfl⟩
  have hneg : ¬ simplifyTarget ≥ (numVertices g : Int) := not_le.2 h
  simp only [simplifyPhase, if_neg hneg, ExportSlab, ComputeFacesSimpleTriangles,
    ComputeEdgesCone, ComputeVerticesNormal, ComputeFacesNormal]
  rw [simplify_log]
  have hcl : (CleanIsolatedVertices g).log = g.log ++ [SlabOp.clean] := rfl
  rw [hcl]
  simp [List.append_assoc]

/-- Witness for C4 at the concrete triangle mesh, target 2. -/
theorem C4_operation_order_witness :
    (∃ n, (simplifyPhase cmZero 2 [] gTri).1.log =
      gTri.log ++ [SlabOp.clean] ++ List.replicate n SlabOp.collapse ++
        [SlabOp.facesNormal, SlabOp.verticesNormal, SlabOp.edgesCone,
         SlabOp.facesSimpleTris, SlabOp.exportMA]) ∧
    (CleanIsolatedVertices gTri).collapses = gTri.collapses :=
  C4_operation_order cmZero 2 [] gTri (by decide)

/-- Counterexample to C3 as stated: the invocation
`qmat_cli in.off --simplify 0` supplies a non-positive target, and it is
NOT treated as a no-op — `parseArguments` marks the options invalid
("--simplify value must be positive.") and `main` exits fatally with code
1 (main_cli.cpp lines 168-172), writing nothing. -/
theorem C3_counterexample :
    (parseArguments stod0 ["in.off".toList, "--simplify".toList, "0".toList]).valid = false ∧
    mainRun w0c stod0 ["in.off".toList, "--simplify".toList, "0".toList] = (1, []) := by
  constructor
  · decide
  · decide

/-- C3 (amended): the two over-large/non-positive target conditions are
handled differently.  A non-positive `--simplify` value is rejected at
argument parsing (lines 79-90) and is fatal: `main` exits with code 1 and
writes nothing (lines 168-172).  Only a target that is not below the
current vertex count is reported as a warn-and-skip no-op (lines
269-272). -/
theorem C3_target_validation_amended :
    (∀ (stod : Str → Option ℚ) (rest : List Str) (o : CLIOptions) (v : Str) (n : Int),
      stoi v = some n → n ≤ 0 →
      parseLoop stod ("--simplify".toList :: v :: rest) o =
        { o with valid := false,
                 errorMessage := "--simplify value must be positive.".toList }) ∧
    (∀ (w : World) (stod : Str → Option ℚ) (args : List Str),
      (parseArguments stod args).showHelp = false →
      (parseArguments stod args).valid = false →
      mainRun w stod args = (1, [])) ∧
    (∀ (cm : CostModel) (simplifyTarget : Int) (outName : Str) (g : SlabMesh),
      simplifyTarget ≥ (numVertices g : Int) →
      simplifyPhase cm simplifyTarget outName g = (g, [])) := by
  refine ⟨?_, ?_, fun cm t outName g h => simplifyPhase_skip cm t outName g h⟩
  · intro stod rest o v n h1 h2
    rw [parseLoop]
    rw [if_neg (by decide), if_pos (by decide)]
    rw [h1]
    simp [h2]
  · intro w stod args h1 h2
    rw [mainRun]
    simp only [h1, h2]
    rfl

/-- Witness for the amended C3 at concrete inputs: `--simplify 0` flags the
options invalid with the "must be positive" message, an invalid argument
list makes the run exit 1 writing nothing, and an over-large target is a
skip that leaves the mesh untouched. -/
theorem C3_target_validation_amended_witness :
    parseLoop stod0 ["--simplify".toList, "0".toList] {} =
      { ({} : CLIOptions) with
          valid := false,
          errorMessage := "--simplify value must be positive.".toList } ∧
    mainRun w0c stod0 ["--badflag".toList] = (1, []) ∧
    simplifyPhase cmZero 9 [] gOne = (gOne, []) :=
  ⟨C3_target_validation_amended.1 stod0 [] {} ("0".toList) 0 (by decide) (by decide),
   C3_target_validation_amended.2.1 w0c stod0 ["--badflag".toList] (by decide) (by decide),
   C3_target_validation_amended.2.2 cmZero 9 [] gOne (by decide)⟩

/-- C7: malformed or empty inputs fail with a descriptive error before any
collapse is attempted and no partial result is written.  First conjunct:
when the input file cannot be opened, `main` exits with code 1 before any
computation — nothing is written, no slab-mesh operation runs
(main_cli.cpp lines 191-195).  Second and third: an OBJ file with no
vertices or no faces makes `ParseObjFile` fail with the corresponding
descriptive message (ObjLoader.cpp lines 68-102), so `LoadObjFile` builds
nothing. -/
theorem C7_input_error_fatal :
    (∀ (w : World) (stod : Str → Option ℚ) (args : List Str),
      (parseArguments stod args).showHelp = false →
      (parseArguments stod args).valid = true →
      w.fileOk = false →
      mainRun w stod args = (1, [])) ∧
    (∀ (filename err : Str) (shapes : List TinyShape),
      ParseObjFile filename true err [] shapes =
        Except.error "OBJ file contains no vertices".toList) ∧
    (∀ (filename err : Str) (verts : List ℚ) (shapes : List TinyShape),
      verts ≠ [] → buildFaces shapes = [] →
      ParseObjFile filename true err verts shapes =
        Except.error "OBJ file contains no faces".toList) := by
  refine ⟨?_, ?_, ?_⟩
  · intro w stod args h1 h2 h3
    rw [mainRun]
    simp only [h1, h2, h3]
    rfl
  · intro filename err shapes
    rw [ParseObjFile]
    rw [if_neg (by decide), if_pos rfl]
  · intro filename err verts shapes hv hf
    rw [ParseObjFile]
    rw [if_neg (by decide), if_neg hv]
    simp only [hf]
    rfl

/-- A concrete world whose input file does not open. -/
def wClosed : World :=
  { fileOk := false, rawMA := { verts := [], edges := [], faces := [] }, cm := cmZero }

/-- Witness for C7 at concrete inputs: unopenable file, a vertex-free OBJ,
and a face-free OBJ. -/
theorem C7_input_error_fatal_witness :
    mainRun wClosed stod0 ["x.off".toList] = (1, []) ∧
    ParseObjFile [] true [] [] [] = Except.error "OBJ file contains no vertices".toList ∧
    ParseObjFile [] true [] [1] [] = Except.error "OBJ file contains no faces".toList :=
  ⟨C7_input_error_fatal.1 wClosed stod0 ["x.off".toList] (by decide) (by decide) rfl,
   C7_input_error_fatal.2.1 [] [] [],
   C7_input_error_fatal.2.2 [] [] [1] [] (by decide) rfl⟩

/-- C10: for an OBJ file that parses and builds into a valid polyhedron,
`LoadObjFile` returns true even when the mesh is not closed: a
non-watertight mesh produces exactly the boundary-edges warning on stderr
and never a failure (ObjLoader.cpp lines 130-139). -/
theorem C10_open_mesh_warns_only (filename err : Str) (ret : Bool) (verts : List ℚ)
    (shapes : List TinyShape) (b : BuildOutcome) (d : ObjData)
    (hparse : ParseObjFile filename ret err verts shapes = Except.ok d)
    (hexc : b.exc = none) (hvalid : b.valid = true) :
    (LoadObjFile filename ret err verts shapes b).1 = true ∧
    ((LoadObjFile filename ret err verts shapes b).2.2 ≠ [] ↔ b.closed = false) := by
  rw [LoadObjFile]
  rw [hparse]
  simp only [hexc, hvalid]
  cases hc : b.closed with
  | false => simp
  | true => simp

/-- Witness for C10: a one-triangle OBJ (which is not closed) loads
successfully with exactly the warning. -/
theorem C10_open_mesh_warns_only_witness :
    (LoadObjFile [] true [] [1, 0, 0, 0, 1, 0, 0, 0, 1]
      [{ numFaceVerts := [3], indices := [0, 1, 2] }]
      { exc := none, valid := true, closed := false }).1 = true ∧
    ((LoadObjFile [] true [] [1, 0, 0, 0, 1, 0, 0, 0, 1]
      [{ numFaceVerts := [3], indices := [0, 1, 2] }]
      { exc := none, valid := true, closed := false }).2.2 ≠ [] ↔
      ({ exc := none, valid := true, closed := false } : BuildOutcome).closed = false) :=
  C10_open_mesh_warns_only [] [] true [1, 0, 0, 0, 1, 0, 0, 0, 1]
    [{ numFaceVerts := [3], indices := [0, 1, 2] }]
    { exc := none, valid := true, closed := false }
    { vertices := [1, 0, 0, 0, 1, 0, 0, 0, 1], faces := [[0, 1, 2]] }
    rfl rfl rfl

lemma rfindSub_short {s pat : Str} (h : s.length < pat.length) : rfindSub s pat = none := by
  induction s with
  | nil =>
    have hp : pat ≠ [] := by
      intro e
      rw [e] at h
      simp at h
    simp [rfindSub, hp]
  | cons x xs ih =>
    rw [rfindSub]
    have hxs : xs.length < pat.length := Nat.lt_of_succ_lt h
    rw [ih hxs]
    have hnp : ¬ (pat.isPrefixOf (x :: xs) = true) := by
      intro hpre
      have hle := (List.isPrefixOf_iff_prefix.1 hpre).length_le
      exact absurd hle (not_le.2 h)
    simp [hnp]

lemma rfindSub_of_suffix {pat : Str} (hp : pat ≠ []) (t : Str) :
    rfindSub (t ++ pat) pat = some t.length := by
  induction t with
  | nil =>
    obtain ⟨p, ps, rfl⟩ : ∃ p ps, pat = p :: ps := by
      cases pat with
      | nil => exact absurd rfl hp
      | cons p ps => exact ⟨p, ps, rfl⟩
    rw [List.nil_append, rfindSub]
    rw [rfindSub_short (by simp)]
    simp [List.isPrefixOf_iff_prefix]
  | cons y t2 ih =>
    rw [List.cons_append, rfindSub, ih]
    simp

lemma rfindSub_isPre {s pat : Str} {i : Nat} (h : rfindSub s pat = some i) :
    pat.isPrefixOf (s.drop i) = true ∧ i + pat.length ≤ s.length := by
  induction s generalizing i with
  | nil =>
    rw [rfindSub] at h
    by_cases hp : pat = []
    · rw [if_pos hp] at h
      obtain rfl : i = 0 := by
        injection h with h2
        exact h2.symm
      subst hp
      simp
    · rw [if_neg hp] at h
      exact absurd h (by simp)
  | cons x xs ih =>
    rw [rfindSub] at h
    cases hx : rfindSub xs pat with
    | some j =>
      rw [hx] at h
      obtain rfl : i = j + 1 := by
        injection h with h2
        exact h2.symm
      obtain ⟨h1, h2⟩ := ih hx
      refine ⟨by simpa using h1, ?_⟩
      simp only [List.length_cons]
      omega
    | none =>
      rw [hx] at h
      by_cases hpre : pat.isPrefixOf (x :: xs) = true
      · rw [if_pos hpre] at h
        obtain rfl : i = 0 := by
          injection h with h2
          exact h2.symm
        refine ⟨by simpa using hpre, ?_⟩
        have := (List.isPrefixOf_iff_prefix.1 hpre).length_le
        simpa using this
      · rw [if_neg hpre] at h
        exact absurd h (by simp)

lemma suffix_of_rfindSub_end {f : Str} {i : Nat} (h : rfindSub f offExt = some i)
    (hi : i = f.length - 4) : offExt <:+ f := by
  obtain ⟨hpre, hle⟩ := rfindSub_isPre h
  have h4 : offExt.length = 4 := rfl
  rw [h4] at hle
  have hflen : 4 ≤ f.length := by omega
  have hdl : (f.drop i).length = 4 := by
    rw [List.length_drop]
    omega
  have heq : offExt = f.drop i :=
    List.IsPrefix.eq_of_length (List.isPrefixOf_iff_prefix.1 hpre) (by rw [hdl, h4])
  exact ⟨f.take i, by rw [heq]; exact List.take_append_drop i f⟩

lemma defaultOutName_eq (f : Str) :
    defaultOutName f =
      if offExt.isSuffixOf f = true then f.take (f.length - 4) else f := by
  by_cases hs : offExt <:+ f
  · obtain ⟨t, rfl⟩ := hs
    have hr := @rfindSub_of_suffix offExt (by decide) t
    have hlen : t.length = (t ++ offExt).length - 4 := by
      simp [offExt]
    have hsuf : offExt.isSuffixOf (t ++ offExt) = true :=
      List.isSuffixOf_iff_suffix.2 ⟨t, rfl⟩
    simp only [defaultOutName, hr, if_pos hlen, if_pos hsuf]
    rw [← hlen]
  · have hns : ¬ offExt.isSuffixOf f = true := fun hsu =>
      hs (List.isSuffixOf_iff_suffix.1 hsu)
    rw [if_neg hns]
    cases hr : rfindSub f offExt with
    | none => simp only [defaultOutName, hr]
    | some i =>
      have hne : i ≠ f.length - 4 := fun hi => hs (suffix_of_rfindSub_end hr hi)
      simp only [defaultOutName, hr]
      rw [if_neg hne]

lemma parseLoop_outputPrefix (stod : Str → Option ℚ) :
    ∀ (fuel : Nat) (args : List Str) (o : CLIOptions), args.length ≤ fuel →
      "--output".toList ∉ args →
      (parseLoop stod args o).outputPrefix = o.outputPrefix := by
  intro fuel
  induction fuel with
  | zero =>
    intro args o hlen hmem
    have hnil : args = [] := List.eq_nil_of_length_eq_zero (Nat.le_zero.1 hlen)
    subst hnil
    rfl
  | succ fuel ih =>
    intro args o hlen hmem
    cases args with
    | nil => rfl
    | cons arg rest =>
      simp only [List.mem_cons, not_or] at hmem
      obtain ⟨hne, hrest⟩ := hmem
      simp only [List.length_cons] at hlen
      rw [parseLoop.eq_def]
      by_cases h1 : arg = "--help".toList ∨ arg = "-h".toList
      · simp only [if_pos h1]
      · simp only [if_neg h1]
        by_cases h2 : arg = "--simplify".toList
        · simp only [if_pos h2]
          cases rest with
          | nil => rfl
          | cons v rest2 =>
            simp only [List.mem_cons, not_or] at hrest
            cases hst : stoi v with
            | none => simp only [hst]
            | some n =>
              simp only [hst]
              by_cases hn : n ≤ 0
              · simp only [if_pos hn]
              · simp only [if_neg hn]
                exact ih rest2 _ (by simp only [List.length_cons] at hlen; omega) hrest.2
        · simp only [if_neg h2]
          by_cases h3 : arg = "--k".toList
          · simp only [if_pos h3]
            cases rest with
            | nil => rfl
            | cons v rest2 =>
              simp only [List.mem_cons, not_or] at hrest
              cases hsd : stod v with
              | none => simp only [hsd]
              | some x =>
                simp only [hsd]
                by_cases hx : x ≤ 0
                · simp only [if_pos hx]
                · simp only [if_neg hx]
                  exact ih rest2 _ (by simp only [List.length_cons] at hlen; omega) hrest.2
          · simp only [if_neg h3]
            by_cases h4 : arg = "--output".toList
            · exact absurd h4.symm hne
            · simp only [if_neg h4]
              by_cases h5 : arg.headD (Char.ofNat 0) = '-'
              · simp only [if_pos h5]
              · simp only [if_neg h5]
                by_cases h6 : o.inputFile = []
                · simp only [if_pos h6]
                  exact ih rest _ (by omega) hrest
                · simp only [if_neg h6]

/-- C8: when `--output` is never supplied and parsing completes (the options
are valid and not the help screen), the output prefix defaults to the
input filename with a trailing ".off" removed exactly when the name ends
in the lowercase four characters ".off"; any other name — uppercase
".OFF", ".off" mid-name, no extension — is kept verbatim. -/
theorem C8_default_output_prefix (stod : Str → Option ℚ) (args : List Str)
    (hout : "--output".toList ∉ args)
    (hvalid : (parseArguments stod args).valid = true)
    (hhelp : (parseArguments stod args).showHelp = false) :
    (parseArguments stod args).outputPrefix =
      (if offExt.isSuffixOf (parseArguments stod args).inputFile = true
       then (parseArguments stod args).inputFile.take
         ((parseArguments stod args).inputFile.length - 4)
       else (parseArguments stod args).inputFile) := by
  by_cases hnil : args = []
  · rw [parseArguments, if_pos hnil] at hvalid
    exact absurd hvalid (by simp)
  · rw [parseArguments, if_neg hnil] at hvalid hhelp ⊢
    by_cases hsh : (parseLoop stod args {}).showHelp = true
    · rw [if_pos hsh] at hhelp
      exact absurd hsh (by rw [hhelp]; simp)
    · rw [if_neg hsh] at hvalid hhelp ⊢
      by_cases hv : (parseLoop stod args {}).valid = true
      · rw [if_neg (not_not_intro hv)] at hvalid hhelp ⊢
        by_cases hin : (parseLoop stod args {}).inputFile = []
        · rw [if_pos hin] at hvalid
          exact absurd hvalid (by simp)
        · rw [if_neg hin] at hvalid hhelp ⊢
          have houtp : (parseLoop stod args {}).outputPrefix = [] :=
            parseLoop_outputPrefix stod args.length args {} (le_refl _) hout
          rw [if_pos houtp] at hvalid hhelp ⊢
          exact defaultOutName_eq (parseLoop stod args {}).inputFile
      · have hvf : ¬ (parseLoop stod args {}).valid := hv
        rw [if_pos hvf] at hvalid
        exact absurd hvalid hv

/-- Witness for C8 at the concrete invocation `qmat_cli model.off`: the
default output prefix is the filename with ".off" stripped. -/
theorem C8_default_output_prefix_witness :
    (parseArguments stod0 ["model.off".toList]).outputPrefix =
      (if offExt.isSuffixOf (parseArguments stod0 ["model.off".toList]).inputFile = true
       then (parseArguments stod0 ["model.off".toList]).inputFile.take
         ((parseArguments stod0 ["model.off".toList]).inputFile.length - 4)
       else (parseArguments stod0 ["model.off".toList]).inputFile) :=
  C8_default_output_prefix stod0 ["model.off".toList] (by decide) (by decide) (by decide)
